import Mathlib

/-
Verification of the cleanbot robot tracker (src/robot/cleanbot/trackers.py).

The tracker represents the set of visited lattice cells as coalesced
coordinate intervals per row and per column.  This file embeds the Python
code shallowly: lists model Python lists, an association list models the
insertion-ordered defaultdict, and Except models raised ValueErrors.
-/

namespace Cleanbot

/-- A range of coordinates within a row or column, inclusive on both ends
(class CleanedRange).  The Python attribute `end` is called `end'` here. -/
structure CleanedRange where
  start : Int
  end' : Int
deriving DecidableEq, Repr

/-- CleanedRange.__lt__: lexicographic comparison on (start, end). -/
def CleanedRange.lt (a b : CleanedRange) : Bool :=
  a.start < b.start || (a.start == b.start && a.end' < b.end')

/-- CleanedRange.overlaps_with, verbatim from the source:
(self.start <= other.start <= self.end + 1) or
(self.start - 1 <= other.end <= self.end). -/
def CleanedRange.overlaps_with (a b : CleanedRange) : Bool :=
  (a.start ≤ b.start && b.start ≤ a.end' + 1)
    || (a.start - 1 ≤ b.end' && b.end' ≤ a.end')

/-- CleanedRange.merge_with: functional version returning the mutated self. -/
def CleanedRange.merge_with (a b : CleanedRange) : CleanedRange :=
  ⟨min a.start b.start, max a.end' b.end'⟩

/-- CleanedRange.__len__: end - start + 1. -/
def CleanedRange.len (a : CleanedRange) : Int :=
  a.end' - a.start + 1

/-- Whether a coordinate lies inside a range (both bounds inclusive). -/
def CleanedRange.containsCoord (c : CleanedRange) (k : Int) : Bool :=
  c.start ≤ k && k ≤ c.end'

/-- The loop of CPython's bisect.bisect_left, with explicit fuel.
Each iteration strictly shrinks hi - lo, so fuel = length suffices. -/
def bisectLeftLoop (a : List CleanedRange) (x : CleanedRange) :
    Nat → Nat → Nat → Nat
  | 0, lo, _ => lo
  | fuel + 1, lo, hi =>
    if lo < hi then
      if CleanedRange.lt (a.getD ((lo + hi) / 2) ⟨0, 0⟩) x then
        bisectLeftLoop a x fuel ((lo + hi) / 2 + 1) hi
      else
        bisectLeftLoop a x fuel lo ((lo + hi) / 2)
    else lo

/-- bisect.bisect_left(a, x) with default lo = 0, hi = len(a). -/
def bisect_left (a : List CleanedRange) (x : CleanedRange) : Nat :=
  bisectLeftLoop a x a.length 0 a.length

/-- A row or column of the grid (class Line): its list of cleaned ranges. -/
structure Line where
  c_ranges : List CleanedRange
deriving DecidableEq, Repr

/-- Line(): a fresh line with no ranges. -/
def Line.emptyLine : Line := ⟨[]⟩

/-- The loop of Line.__contains__, with its early exit once
c_range.start > item (relies on the ranges being sorted). -/
def containsLoop (item : Int) : List CleanedRange → Bool
  | [] => false
  | c :: rest =>
    if c.start ≤ item && item ≤ c.end' then true
    else if item < c.start then false
    else containsLoop item rest

/-- Line.__contains__. -/
def Line.containsCoord (l : Line) (item : Int) : Bool :=
  containsLoop item l.c_ranges

/-- All integers from s to e inclusive (Python range(s, e + 1)). -/
def intRange (s e : Int) : List Int :=
  (List.range (e - s + 1).toNat).map (fun i => s + i)

/-- Line.cleaned_coords: every coordinate of every range, in list order. -/
def Line.cleaned_coords (l : Line) : List Int :=
  (l.c_ranges.map (fun c => intRange c.start c.end')).flatten

/-- The body of Line.insert once the insertion index has been computed:
merge with the immediate left and right neighbours when they overlap,
collapse the two neighbours when both merged, otherwise insert the new
range when neither merged. -/
def insertAt (cs0 : List CleanedRange) (index : Nat)
    (new_range : CleanedRange) : List CleanedRange :=
  let is_left_merged :=
    decide (0 < index) &&
      (match cs0.get? (index - 1) with
       | some next_lower => new_range.overlaps_with next_lower
       | none => false)
  let cs1 :=
    if is_left_merged then
      cs0.set (index - 1) ((cs0.getD (index - 1) ⟨0, 0⟩).merge_with new_range)
    else cs0
  let is_right_merged :=
    match cs1.get? index with
    | some next_higher => new_range.overlaps_with next_higher
    | none => false
  let cs2 :=
    if is_right_merged then
      cs1.set index ((cs1.getD index ⟨0, 0⟩).merge_with new_range)
    else cs1
  if is_left_merged && is_right_merged then
    let next_lower := cs2.getD (index - 1) ⟨0, 0⟩
    let next_higher := cs2.getD index ⟨0, 0⟩
    (cs2.set (index - 1) (next_lower.merge_with next_higher)).eraseIdx index
  else if !is_left_merged && !is_right_merged then
    cs2.insertIdx index new_range
  else
    cs2

/-- Line.insert: bisect for the index that keeps the ranges sorted, then
run the neighbour-merging body at that index. -/
def Line.insert (line : Line) (new_range : CleanedRange) : Line :=
  ⟨insertAt line.c_ranges (bisect_left line.c_ranges new_range) new_range⟩

/-- Line.get_num_of_cleaned_vertices: sum of the lengths of the ranges. -/
def Line.get_num_of_cleaned_vertices (l : Line) : Int :=
  (l.c_ranges.map CleanedRange.len).sum

/-- The robot's position (class Position). -/
structure Position where
  x : Int
  y : Int
deriving DecidableEq, Repr

/-- Position.update: translate by direction and steps, or raise ValueError
for an unrecognized direction. -/
def Position.update (p : Position) (direction : String) (steps : Int) :
    Except String Position :=
  if direction == "north" then .ok { p with y := p.y + steps }
  else if direction == "south" then .ok { p with y := p.y - steps }
  else if direction == "east" then .ok { p with x := p.x + steps }
  else if direction == "west" then .ok { p with x := p.x - steps }
  else .error ("Invalid direction: " ++ direction)

/-- An insertion-ordered mapping from coordinates to Lines, modelling the
defaultdict(Line): a duplicate-free association list in insertion order. -/
abbrev LineMap := List (Int × Line)

/-- Plain dict lookup (no default insertion). -/
def lookupLine : LineMap → Int → Option Line
  | [], _ => none
  | (k', l) :: rest, k => if k' = k then some l else lookupLine rest k

/-- The Line a defaultdict lookup returns: the stored Line, or a fresh
empty Line for an unseen key. -/
def getLineD (m : LineMap) (k : Int) : Line :=
  (lookupLine m k).getD Line.emptyLine

/-- defaultdict.__getitem__ in a reading position: returns the Line and
the updated dict (an unseen key appends a fresh empty Line). -/
def dictGet (m : LineMap) (k : Int) : Line × LineMap :=
  match lookupLine m k with
  | some l => (l, m)
  | none => (Line.emptyLine, m ++ [(k, Line.emptyLine)])

/-- d[k].insert(...) on a defaultdict: mutate the stored Line in place,
creating it first when the key is unseen. -/
def dictModify (m : LineMap) (k : Int) (f : Line → Line) : LineMap :=
  match m with
  | [] => [(k, f Line.emptyLine)]
  | (k', l) :: rest =>
    if k' = k then (k', f l) :: rest else (k', l) :: dictModify rest k f

/-- The office state (class Office): robot position plus the row and
column maps. -/
structure Office where
  robot_position : Position
  rows : LineMap
  cols : LineMap
deriving DecidableEq, Repr

/-- Office.__init__: robot at the origin, with the starting cell inserted
into rows[0] and cols[0]. -/
def Office.initial : Office :=
  { robot_position := ⟨0, 0⟩
    rows := dictModify [] 0 (fun l => l.insert ⟨0, 0⟩)
    cols := dictModify [] 0 (fun l => l.insert ⟨0, 0⟩) }

/-- Office._get_range_for: the coordinate range swept by a move; any
direction other than east/west/north falls into the south branch. -/
def Office.get_range_for (o : Office) (direction : String) (steps : Int) :
    CleanedRange :=
  if direction == "east" then
    ⟨o.robot_position.x, o.robot_position.x + steps⟩
  else if direction == "west" then
    ⟨o.robot_position.x - steps, o.robot_position.x⟩
  else if direction == "north" then
    ⟨o.robot_position.y, o.robot_position.y + steps⟩
  else
    ⟨o.robot_position.y - steps, o.robot_position.y⟩

/-- Office._add_range_to_line: insert the swept range into the current
row for horizontal moves, else into the current column. -/
def Office.add_range_to_line (o : Office) (direction : String) (steps : Int) :
    Office :=
  let c_range := o.get_range_for direction steps
  if direction == "east" || direction == "west" then
    let rows' := dictModify o.rows o.robot_position.y (fun l => l.insert c_range)
    { o with rows := rows' }
  else
    let cols' := dictModify o.cols o.robot_position.x (fun l => l.insert c_range)
    { o with cols := cols' }

/-- Office.move_robot: record the swept range, then update the position
(which raises on an invalid direction, after the range was recorded). -/
def Office.move_robot (o : Office) (direction : String) (steps : Int) :
    Except String Office :=
  let o' := o.add_range_to_line direction steps
  match o'.robot_position.update direction steps with
  | .ok p => .ok { o' with robot_position := p }
  | .error e => .error e

/-- A single command: a direction string and a step count. -/
structure Command where
  direction : String
  steps : Int
deriving DecidableEq, Repr

/-- The command loop of RobotTracker.get_num_of_cleaned_vertices. -/
def replayCommands (o : Office) : List Command → Except String Office
  | [] => .ok o
  | c :: rest =>
    match o.move_robot c.direction c.steps with
    | .ok o' => replayCommands o' rest
    | .error e => .error e

/-- The loop of RobotTracker._unique_vertices_in_column: for each cleaned
coordinate y of the column, count y when x is not in rows[y]; each rows[y]
lookup threads the defaultdict (unseen keys gain an empty Line). -/
def uvicLoop (x : Int) : List Int → Int × LineMap → Int × LineMap
  | [], acc => acc
  | y :: rest, (n, rows) =>
    let p := dictGet rows y
    uvicLoop x rest (if p.1.containsCoord x then n else n + 1, p.2)

/-- RobotTracker._unique_vertices_in_column. -/
def unique_vertices_in_column (rows : LineMap) (col : Line) (x : Int) :
    Int × LineMap :=
  uvicLoop x col.cleaned_coords (0, rows)

/-- RobotTracker._row_total: sum of cleaned-vertex counts over all rows. -/
def row_total (rows : LineMap) : Int :=
  (rows.map (fun p => p.2.get_num_of_cleaned_vertices)).sum

/-- The loop of RobotTracker._col_total over cols.items(), threading the
rows map through the membership lookups. -/
def colTotalLoop (acc : Int × LineMap) : List (Int × Line) → Int × LineMap
  | [] => acc
  | (x, col) :: rest =>
    let r := unique_vertices_in_column acc.2 col x
    colTotalLoop (acc.1 + r.1, r.2) rest

/-- RobotTracker._col_total: the column contribution and the rows map as
mutated by the defaultdict lookups. -/
def col_total (rows : LineMap) (cols : LineMap) : Int × LineMap :=
  colTotalLoop (0, rows) cols

/-- RobotTracker.get_num_of_cleaned_vertices: replay the commands on a
fresh office, then return _row_total + _col_total. -/
def RobotTracker.get_num_of_cleaned_vertices (commands : List Command) :
    Except String Int :=
  match replayCommands Office.initial commands with
  | .error e => .error e
  | .ok office =>
    .ok (row_total office.rows + (col_total office.rows office.cols).1)

/-- The cells swept by one command of SimpleRobotTracker (excluding the
starting cell of the move): range(1, steps + 1) along the direction. -/
def placesFor (pos : Position) (direction : String) (steps : Int) :
    List (Int × Int) :=
  if direction == "east" then
    (intRange 1 steps).map (fun i => (pos.x + i, pos.y))
  else if direction == "west" then
    (intRange 1 steps).map (fun i => (pos.x - i, pos.y))
  else if direction == "north" then
    (intRange 1 steps).map (fun i => (pos.x, pos.y + i))
  else
    (intRange 1 steps).map (fun i => (pos.x, pos.y - i))

/-- The command loop of SimpleRobotTracker: grow the visited set, then
update the position (which may raise). -/
def simpleLoop (pos : Position) (visited : Finset (Int × Int)) :
    List Command → Except String (Finset (Int × Int))
  | [] => .ok visited
  | c :: rest =>
    let places := (placesFor pos c.direction c.steps).toFinset
    match pos.update c.direction c.steps with
    | .ok pos' => simpleLoop pos' (visited ∪ places) rest
    | .error e => .error e

/-- SimpleRobotTracker.get_num_of_cleaned_vertices: the size of the set of
visited cells, starting from {(0, 0)}. -/
def SimpleRobotTracker.get_num_of_cleaned_vertices (commands : List Command) :
    Except String Int :=
  match simpleLoop ⟨0, 0⟩ {(0, 0)} commands with
  | .ok s => .ok (s.card : Int)
  | .error e => .error e

/-- The Line invariant stated in the spec: consecutive stored ranges are
in sorted order and separated by a gap of at least one coordinate. -/
def lineInvariant : List CleanedRange → Bool
  | [] => true
  | [_] => true
  | a :: b :: rest =>
    CleanedRange.lt a b && decide (a.end' + 1 < b.start)
      && lineInvariant (b :: rest)

/-- The start-registration property claimed by the spec, evaluated at a
given starting position on the office the code actually constructs: the
starting cell is present in the row keyed by start.y and in the column
keyed by start.x. -/
def startRegistered (start : Position) : Bool :=
  (getLineD Office.initial.rows start.y).containsCoord start.x
    && (getLineD Office.initial.cols start.x).containsCoord start.y

/-- The spec's column summand, read off a fixed state with pure lookups:
the count of y in col.covered_coordinates() such that x is not contained
in the row Line keyed by y. -/
def specUniqueVertices (rows : LineMap) (col : Line) (x : Int) : Int :=
  ((col.cleaned_coords.filter
    (fun y => !(getLineD rows y).containsCoord x)).length : Int)

/-- The spec's column formula: the sum of the column summands over all
column Lines keyed by x. -/
def specColTotal (rows cols : LineMap) : Int :=
  (cols.map (fun p => specUniqueVertices rows p.2 p.1)).sum

/-- One evaluation of _row_total + _col_total on a fixed office state:
the value, and the office as left behind by the defaultdict lookups
performed during the column pass. -/
def tallyRun (o : Office) : Int × Office :=
  let rt := row_total o.rows
  let ct := col_total o.rows o.cols
  (rt + ct.1, { o with rows := ct.2 })

/-- A coordinate is covered by a Line when it lies inside the union of
the stored ranges (no sortedness assumption, unlike Line.__contains__). -/
def Line.covers (l : Line) (k : Int) : Bool :=
  l.c_ranges.any (fun c => c.containsCoord k)

/-- The four recognized directions. -/
def validDirection (d : String) : Prop :=
  d = "north" ∨ d = "south" ∨ d = "east" ∨ d = "west"

theorem getD_eq_of_get? {α : Type} (l : List α) (i : Nat) (d v : α)
    (h : l.get? i = some v) : l.getD i d = v := by
  simp [List.getD, ← List.get?_eq_getElem?, h]

theorem lt_length_of_get? {α : Type} {l : List α} {i : Nat} {v : α}
    (h : l.get? i = some v) : i < l.length := by
  by_contra hn
  push_neg at hn
  rw [List.get?_eq_none.mpr hn] at h
  exact Option.noConfusion h

/-- The merged range covers everything either argument covers. -/
theorem containsCoord_merge_with (a b : CleanedRange) (k : Int)
    (h : a.containsCoord k = true ∨ b.containsCoord k = true) :
    (a.merge_with b).containsCoord k = true := by
  simp only [CleanedRange.containsCoord, CleanedRange.merge_with,
    Bool.and_eq_true, decide_eq_true_eq] at h ⊢
  omega

/-- Replacing the range at a valid index with its merge with r keeps
every coordinate of the list covered and also covers r. -/
theorem any_covers_set_merge :
    ∀ (cs : List CleanedRange) (i : Nat) (a b : CleanedRange),
      cs.get? i = some a → ∀ k : Int,
      (b.containsCoord k || cs.any (fun c => c.containsCoord k)) = true →
      (cs.set i (a.merge_with b)).any (fun c => c.containsCoord k) = true := by
  intro cs
  induction cs with
  | nil => intro i a b h; simp at h
  | cons c rest ih =>
    intro i a b h k hk
    cases i with
    | zero =>
      rw [List.get?_cons_zero] at h
      obtain rfl : c = a := Option.some.inj h
      simp only [List.set_cons_zero, List.any_cons, Bool.or_eq_true] at hk ⊢
      rcases hk with hb | hc | hrest
      · exact Or.inl (containsCoord_merge_with c b k (Or.inr hb))
      · exact Or.inl (containsCoord_merge_with c b k (Or.inl hc))
      · exact Or.inr hrest
    | succ j =>
      rw [List.get?_cons_succ] at h
      simp only [List.set_cons_succ, List.any_cons, Bool.or_eq_true] at hk ⊢
      rcases hk with hb | hc | hrest
      · exact Or.inr (ih j a b h k (by simp [hb]))
      · exact Or.inl hc
      · exact Or.inr (ih j a b h k (by simp [hrest]))

/-- Merging two adjacent stored ranges and erasing the second keeps every
coordinate of the list covered. -/
theorem any_covers_collapse :
    ∀ (cs : List CleanedRange) (j : Nat) (lo hi : CleanedRange),
      cs.get? j = some lo → cs.get? (j + 1) = some hi → ∀ k : Int,
      cs.any (fun c => c.containsCoord k) = true →
      ((cs.set j (lo.merge_with hi)).eraseIdx (j + 1)).any
        (fun c => c.containsCoord k) = true := by
  intro cs
  induction cs with
  | nil => intro j lo hi h; simp at h
  | cons c rest ih =>
    intro j lo hi hl hh k hk
    cases j with
    | zero =>
      rw [List.get?_cons_zero] at hl
      obtain rfl : c = lo := Option.some.inj hl
      cases rest with
      | nil => simp at hh
      | cons c2 rest2 =>
        rw [List.get?_cons_succ, List.get?_cons_zero] at hh
        obtain rfl : c2 = hi := Option.some.inj hh
        simp only [List.set_cons_zero, List.eraseIdx, List.any_cons,
          Bool.or_eq_true] at hk ⊢
        rcases hk with hc | hc2 | hrest
        · exact Or.inl (containsCoord_merge_with c c2 k (Or.inl hc))
        · exact Or.inl (containsCoord_merge_with c c2 k (Or.inr hc2))
        · exact Or.inr hrest
    | succ j =>
      rw [List.get?_cons_succ] at hl hh
      simp only [List.set_cons_succ, List.eraseIdx, List.any_cons,
        Bool.or_eq_true] at hk ⊢
      rcases hk with hc | hrest
      · exact Or.inl hc
      · exact Or.inr (ih j lo hi hl hh k hrest)

/-- Inserting a range at a position within the list keeps every coordinate
of the list covered and covers the new range. -/
theorem any_covers_insertIdx :
    ∀ (cs : List CleanedRange) (i : Nat) (r : CleanedRange),
      ∀ k : Int,
      (r.containsCoord k || cs.any (fun c => c.containsCoord k)) = true →
      i ≤ cs.length →
      (cs.insertIdx i r).any (fun c => c.containsCoord k) = true := by
  intro cs
  induction cs with
  | nil =>
    intro i r k hk hle
    obtain rfl : i = 0 := Nat.le_zero.mp hle
    rw [List.insertIdx_zero]
    simpa using hk
  | cons c rest ih =>
    intro i r k hk hle
    cases i with
    | zero =>
      rw [List.insertIdx_zero]
      simp only [List.any_cons, Bool.or_eq_true] at hk ⊢
      tauto
    | succ j =>
      rw [List.insertIdx_succ_cons]
      simp only [List.any_cons, Bool.or_eq_true] at hk ⊢
      rcases hk with hr | hc | hrest
      · exact Or.inr (ih j r k (by simp [hr]) (by simpa using hle))
      · exact Or.inl hc
      · exact Or.inr (ih j r k (by simp [hrest]) (by simpa using hle))

/-- The bisect loop never returns an index beyond hi. -/
theorem bisectLeftLoop_le (a : List CleanedRange) (x : CleanedRange) :
    ∀ (fuel lo hi : Nat), lo ≤ hi → bisectLeftLoop a x fuel lo hi ≤ hi := by
  intro fuel
  induction fuel with
  | zero => intro lo hi h; simpa [bisectLeftLoop] using h
  | succ n ih =>
    intro lo hi h
    simp only [bisectLeftLoop]
    split
    · split
      · exact ih _ _ (by omega)
      · exact Nat.le_trans (ih _ _ (by omega)) (by omega)
    · exact h

/-- bisect_left returns an index within the list bounds. -/
theorem bisect_left_le_length (a : List CleanedRange) (x : CleanedRange) :
    bisect_left a x ≤ a.length :=
  bisectLeftLoop_le a x a.length 0 a.length (Nat.zero_le _)

/-- insertAt at index 0 with no stored range: plain insertion. -/
theorem insertAt_zero_empty (cs0 : List CleanedRange) (r : CleanedRange)
    (h : cs0.get? 0 = none) :
    insertAt cs0 0 r = cs0.insertIdx 0 r := by
  rw [List.get?_eq_getElem?] at h
  simp [insertAt, h]

/-- insertAt at index 0 with a non-overlapping right neighbour. -/
theorem insertAt_zero_no_overlap (cs0 : List CleanedRange)
    (r nh : CleanedRange) (h : cs0.get? 0 = some nh)
    (hov : r.overlaps_with nh = false) :
    insertAt cs0 0 r = cs0.insertIdx 0 r := by
  rw [List.get?_eq_getElem?] at h
  simp [insertAt, h, hov]

/-- insertAt at index 0 with an overlapping right neighbour. -/
theorem insertAt_zero_overlap (cs0 : List CleanedRange)
    (r nh : CleanedRange) (h : cs0.get? 0 = some nh)
    (hov : r.overlaps_with nh = true) :
    insertAt cs0 0 r = cs0.set 0 (nh.merge_with r) := by
  have hd := getD_eq_of_get? cs0 0 ⟨0, 0⟩ nh h
  rw [List.get?_eq_getElem?] at h
  simp [insertAt, h, hov, hd]

/-- insertAt at index j+1, no merge on either side. -/
theorem insertAt_succ_no_merge (cs0 : List CleanedRange) (j : Nat)
    (r : CleanedRange)
    (hL : match cs0.get? j with
      | some nl => r.overlaps_with nl = false
      | none => True)
    (hR : match cs0.get? (j + 1) with
      | some nh => r.overlaps_with nh = false
      | none => True) :
    insertAt cs0 (j + 1) r = cs0.insertIdx (j + 1) r := by
  rcases h1 : cs0.get? j with _ | nl <;> rcases h2 : cs0.get? (j + 1) with _ | nh <;>
    rw [h1] at hL <;> rw [h2] at hR <;>
    rw [List.get?_eq_getElem?] at h1 h2 <;>
    simp [insertAt, h1, h2, hL, hR]

/-- insertAt at index j+1, merge only with the right neighbour. -/
theorem insertAt_succ_right_only (cs0 : List CleanedRange) (j : Nat)
    (r nh : CleanedRange)
    (hL : match cs0.get? j with
      | some nl => r.overlaps_with nl = false
      | none => True)
    (h2 : cs0.get? (j + 1) = some nh)
    (hov2 : r.overlaps_with nh = true) :
    insertAt cs0 (j + 1) r = cs0.set (j + 1) (nh.merge_with r) := by
  have hd := getD_eq_of_get? cs0 (j + 1) ⟨0, 0⟩ nh h2
  rw [List.get?_eq_getElem?] at h2
  rcases h1 : cs0.get? j with _ | nl <;> rw [h1] at hL <;>
    rw [List.get?_eq_getElem?] at h1 <;>
    simp [insertAt, h1, h2, hL, hov2, hd]

/-- insertAt at index j+1, merge only with the left neighbour. -/
theorem insertAt_succ_left_only (cs0 : List CleanedRange) (j : Nat)
    (r nl : CleanedRange) (h1 : cs0.get? j = some nl)
    (hov1 : r.overlaps_with nl = true)
    (hR : match (cs0.set j (nl.merge_with r)).get? (j + 1) with
      | some nh => r.overlaps_with nh = false
      | none => True) :
    insertAt cs0 (j + 1) r = cs0.set j (nl.merge_with r) := by
  have hd := getD_eq_of_get? cs0 j ⟨0, 0⟩ nl h1
  rcases h2 : (cs0.set j (nl.merge_with r)).get? (j + 1) with _ | nh <;>
    rw [h2] at hR <;>
    rw [List.get?_eq_getElem?] at h2 <;>
    rw [List.get?_eq_getElem?] at h1 <;>
    simp [insertAt, h1, h2, hR, hov1, hd]

/-- insertAt at index j+1, merges on both sides followed by the collapse
of the two enlarged neighbours. -/
theorem insertAt_succ_both (cs0 : List CleanedRange) (j : Nat)
    (r nl nh : CleanedRange) (h1 : cs0.get? j = some nl)
    (hov1 : r.overlaps_with nl = true)
    (h2 : (cs0.set j (nl.merge_with r)).get? (j + 1) = some nh)
    (hov2 : r.overlaps_with nh = true) :
    insertAt cs0 (j + 1) r =
      (((cs0.set j (nl.merge_with r)).set (j + 1) (nh.merge_with r)).set j
        ((nl.merge_with r).merge_with (nh.merge_with r))).eraseIdx (j + 1) := by
  have hj : j < cs0.length := lt_length_of_get? h1
  have hj1 : j + 1 < (cs0.set j (nl.merge_with r)).length :=
    lt_length_of_get? h2
  have hgj : ((cs0.set j (nl.merge_with r)).set (j + 1)
      (nh.merge_with r)).get? j = some (nl.merge_with r) := by
    rw [List.get?_set_ne _ _ (by omega)]
    exact List.get?_set_eq_of_lt _ hj
  have hgj1 : ((cs0.set j (nl.merge_with r)).set (j + 1)
      (nh.merge_with r)).get? (j + 1) = some (nh.merge_with r) :=
    List.get?_set_eq_of_lt _ hj1
  have hd1 := getD_eq_of_get? cs0 j ⟨0, 0⟩ nl h1
  have hd2 := getD_eq_of_get? _ j ⟨0, 0⟩ (nl.merge_with r) hgj
  have hd3 := getD_eq_of_get? _ (j + 1) ⟨0, 0⟩ (nh.merge_with r) hgj1
  have hq1 : (cs0.set j (nl.merge_with r))[j]? = some (nl.merge_with r) := by
    rw [← List.get?_eq_getElem?]
    exact List.get?_set_eq_of_lt _ hj
  have hq2 : ((cs0.set j (nl.merge_with r)).set (j + 1)
      (nh.merge_with r))[j + 1]? = some (nh.merge_with r) := by
    rw [← List.get?_eq_getElem?]
    exact List.get?_set_eq_of_lt _ hj1
  rw [List.get?_eq_getElem?] at h1 h2
  simp [insertAt, h1, h2, hov1, hov2, hd1, hd2, hd3, hq1, hq2]

/-- The insert body at any in-bounds index keeps every previously covered
coordinate covered and covers every coordinate of the new range. -/
theorem insertAt_covers (cs0 : List CleanedRange) (index : Nat)
    (r : CleanedRange) (hle : index ≤ cs0.length) (k : Int)
    (hk : (r.containsCoord k || cs0.any (fun c => c.containsCoord k)) = true) :
    (insertAt cs0 index r).any (fun c => c.containsCoord k) = true := by
  cases index with
  | zero =>
    rcases hget : cs0.get? 0 with _ | nh
    · rw [insertAt_zero_empty cs0 r hget]
      exact any_covers_insertIdx cs0 0 r k hk (Nat.zero_le _)
    · by_cases hov : r.overlaps_with nh = true
      · rw [insertAt_zero_overlap cs0 r nh hget hov]
        exact any_covers_set_merge cs0 0 nh r hget k hk
      · rw [insertAt_zero_no_overlap cs0 r nh hget (by simpa using hov)]
        exact any_covers_insertIdx cs0 0 r k hk (Nat.zero_le _)
  | succ j =>
    rcases hget1 : cs0.get? j with _ | nl
    · have := List.get?_eq_none.mp hget1
      omega
    · by_cases hov1 : r.overlaps_with nl = true
      · rcases hget2 : (cs0.set j (nl.merge_with r)).get? (j + 1) with _ | nh
        · rw [insertAt_succ_left_only cs0 j r nl hget1 hov1
            (by rw [hget2]; trivial)]
          exact any_covers_set_merge cs0 j nl r hget1 k hk
        · by_cases hov2 : r.overlaps_with nh = true
          · rw [insertAt_succ_both cs0 j r nl nh hget1 hov1 hget2 hov2]
            have hj : j < cs0.length := lt_length_of_get? hget1
            have hj1 : j + 1 < (cs0.set j (nl.merge_with r)).length :=
              lt_length_of_get? hget2
            have hgj : ((cs0.set j (nl.merge_with r)).set (j + 1)
                (nh.merge_with r)).get? j = some (nl.merge_with r) := by
              rw [List.get?_set_ne _ _ (by omega)]
              exact List.get?_set_eq_of_lt _ hj
            have hgj1 : ((cs0.set j (nl.merge_with r)).set (j + 1)
                (nh.merge_with r)).get? (j + 1) = some (nh.merge_with r) :=
              List.get?_set_eq_of_lt _ hj1
            have hcs1any : (cs0.set j (nl.merge_with r)).any
                (fun c => c.containsCoord k) = true :=
              any_covers_set_merge cs0 j nl r hget1 k hk
            have hcs2any : ((cs0.set j (nl.merge_with r)).set (j + 1)
                (nh.merge_with r)).any (fun c => c.containsCoord k) = true :=
              any_covers_set_merge _ (j + 1) nh r hget2 k (by simp [hcs1any])
            exact any_covers_collapse _ j (nl.merge_with r)
              (nh.merge_with r) hgj hgj1 k hcs2any
          · rw [insertAt_succ_left_only cs0 j r nl hget1 hov1
              (by rw [hget2]; simpa using hov2)]
            exact any_covers_set_merge cs0 j nl r hget1 k hk
      · have hov1' : r.overlaps_with nl = false := by simpa using hov1
        rcases hget2 : cs0.get? (j + 1) with _ | nh
        · rw [insertAt_succ_no_merge cs0 j r
            (by rw [hget1]; exact hov1') (by rw [hget2]; trivial)]
          exact any_covers_insertIdx cs0 (j + 1) r k hk hle
        · by_cases hov2 : r.overlaps_with nh = true
          · rw [insertAt_succ_right_only cs0 j r nh
              (by rw [hget1]; exact hov1') hget2 hov2]
            exact any_covers_set_merge cs0 (j + 1) nh r hget2 k hk
          · rw [insertAt_succ_no_merge cs0 j r
              (by rw [hget1]; exact hov1')
              (by rw [hget2]; simpa using hov2)]
            exact any_covers_insertIdx cs0 (j + 1) r k hk hle

/-- C9: Line.insert never loses coverage: after inserting a well-formed
range r, every coordinate covered before the insert and every coordinate
of r is covered by the stored ranges. -/
theorem C9_insert_coverage_superset (line : Line) (r : CleanedRange)
    (h : r.start ≤ r.end') (k : Int)
    (hk : line.covers k = true ∨ (r.start ≤ k ∧ k ≤ r.end')) :
    (line.insert r).covers k = true := by
  have hb : (r.containsCoord k
      || line.c_ranges.any (fun c => c.containsCoord k)) = true := by
    rcases hk with hc | ⟨h1, h2⟩
    · simp only [Line.covers] at hc
      simp [hc]
    · simp [CleanedRange.containsCoord, h1, h2]
  exact insertAt_covers line.c_ranges (bisect_left line.c_ranges r) r
    (bisect_left_le_length _ _) k hb

/-- C9 witness: inserting [5,6] into a line holding [0,2] covers 5. -/
theorem C9_insert_coverage_superset_witness :
    (5 : Int) ≤ 6 ∧
      ((⟨[⟨0, 2⟩]⟩ : Line).covers 5 = true ∨ ((5 : Int) ≤ 5 ∧ (5 : Int) ≤ 6)) ∧
      ((⟨[⟨0, 2⟩]⟩ : Line).insert ⟨5, 6⟩).covers 5 = true :=
  ⟨by norm_num, Or.inr (by norm_num),
    C9_insert_coverage_superset ⟨[⟨0, 2⟩]⟩ ⟨5, 6⟩ (by norm_num) 5
      (Or.inr (by norm_num))⟩

/-- Position.update succeeds on every recognized direction. -/
theorem update_ok_of_valid (p : Position) (d : String) (s : Int)
    (h : validDirection d) : ∃ p', p.update d s = Except.ok p' := by
  rcases h with h | h | h | h <;> subst h <;> exact ⟨_, rfl⟩

/-- Position.update raises the invalid-direction ValueError on every
unrecognized direction. -/
theorem update_err_of_invalid (p : Position) (d : String) (s : Int)
    (h : ¬validDirection d) :
    p.update d s = Except.error ("Invalid direction: " ++ d) := by
  simp only [validDirection, not_or] at h
  obtain ⟨h1, h2, h3, h4⟩ := h
  simp [Position.update, h1, h2, h3, h4]

/-- Office.move_robot succeeds on every recognized direction. -/
theorem move_robot_ok_of_valid (o : Office) (d : String) (s : Int)
    (h : validDirection d) : ∃ o', o.move_robot d s = Except.ok o' := by
  obtain ⟨p', hp⟩ := update_ok_of_valid (o.add_range_to_line d s).robot_position d s h
  exact ⟨_, by rw [Office.move_robot, hp]⟩

/-- Office.move_robot raises on every unrecognized direction. -/
theorem move_robot_err_of_invalid (o : Office) (d : String) (s : Int)
    (h : ¬validDirection d) :
    o.move_robot d s = Except.error ("Invalid direction: " ++ d) := by
  rw [Office.move_robot, update_err_of_invalid _ _ _ h]

/-- Replaying commands whose directions are all recognized never raises. -/
theorem replay_ok_of_valid :
    ∀ (cmds : List Command) (o : Office),
      (∀ c ∈ cmds, validDirection c.direction) →
      ∃ o', replayCommands o cmds = Except.ok o' := by
  intro cmds
  induction cmds with
  | nil => intro o _; exact ⟨o, rfl⟩
  | cons c rest ih =>
    intro o h
    obtain ⟨o', ho⟩ := move_robot_ok_of_valid o c.direction c.steps
      (h c (List.mem_cons_self c rest))
    obtain ⟨o'', ho''⟩ := ih o' (fun x hx => h x (List.mem_cons_of_mem c hx))
    exact ⟨o'', by rw [replayCommands, ho]; exact ho''⟩

/-- Replay raises the first invalid command's error. -/
theorem replay_err_at_invalid :
    ∀ (pre : List Command) (o : Office) (bad : Command) (rest : List Command),
      (∀ c ∈ pre, validDirection c.direction) →
      ¬validDirection bad.direction →
      replayCommands o (pre ++ bad :: rest)
        = Except.error ("Invalid direction: " ++ bad.direction) := by
  intro pre
  induction pre with
  | nil =>
    intro o bad rest _ hbad
    rw [List.nil_append, replayCommands,
      move_robot_err_of_invalid o bad.direction bad.steps hbad]
  | cons c pre' ih =>
    intro o bad rest h hbad
    obtain ⟨o', ho⟩ := move_robot_ok_of_valid o c.direction c.steps
      (h c (List.mem_cons_self c pre'))
    rw [List.cons_append, replayCommands, ho]
    exact ih o' bad rest (fun x hx => h x (List.mem_cons_of_mem c hx)) hbad

/-- C5: a command list whose directions are all in
{north, south, east, west} never raises, and a command list containing an
invalid direction fails with the invalid-direction error of the first
invalid command encountered. -/
theorem C5_invalid_direction_error :
    (∀ commands : List Command,
        (∀ c ∈ commands, validDirection c.direction) →
        ∃ n, RobotTracker.get_num_of_cleaned_vertices commands
          = Except.ok n) ∧
    (∀ (pre : List Command) (bad : Command) (rest : List Command),
        (∀ c ∈ pre, validDirection c.direction) →
        ¬validDirection bad.direction →
        RobotTracker.get_num_of_cleaned_vertices (pre ++ bad :: rest)
          = Except.error ("Invalid direction: " ++ bad.direction)) := by
  constructor
  · intro commands h
    obtain ⟨o', ho⟩ := replay_ok_of_valid commands Office.initial h
    exact ⟨_, by rw [RobotTracker.get_num_of_cleaned_vertices, ho]⟩

  · intro pre bad rest h hbad
    rw [RobotTracker.get_num_of_cleaned_vertices,
      replay_err_at_invalid pre Office.initial bad rest h hbad]

/-- C5 witness: north 2 alone succeeds; north 2 followed by the invalid
direction up fails with the matching error. -/
theorem C5_invalid_direction_error_witness :
    (∃ n, RobotTracker.get_num_of_cleaned_vertices [⟨"north", 2⟩]
      = Except.ok n) ∧
    RobotTracker.get_num_of_cleaned_vertices
        [⟨"north", 2⟩, ⟨"up", 1⟩, ⟨"west", 3⟩]
      = Except.error ("Invalid direction: " ++ "up") :=
  ⟨C5_invalid_direction_error.1 [⟨"north", 2⟩] (by
      intro c hc
      simp only [List.mem_singleton] at hc
      subst hc
      exact Or.inl rfl),
    C5_invalid_direction_error.2 [⟨"north", 2⟩] ⟨"up", 1⟩ [⟨"west", 3⟩]
      (by
        intro c hc
        simp only [List.mem_singleton] at hc
        subst hc
        exact Or.inl rfl)
      (by
        intro h
        rcases h with h | h | h | h <;> exact absurd h (by decide))⟩

theorem lookupLine_append_single (m : LineMap) (k k' : Int) (v : Line) :
    lookupLine (m ++ [(k, v)]) k'
      = match lookupLine m k' with
        | some l => some l
        | none => if k = k' then some v else none := by
  induction m with
  | nil => simp [lookupLine]
  | cons p rest ih =>
    by_cases h : p.1 = k'
    · simp [lookupLine, h]
    · simpa [lookupLine, h] using ih

/-- A defaultdict read returns exactly the pure lookup-with-default. -/
theorem dictGet_fst (m : LineMap) (k : Int) :
    (dictGet m k).1 = getLineD m k := by
  unfold dictGet getLineD
  cases lookupLine m k <;> simp

/-- A defaultdict read does not change any lookup-with-default. -/
theorem getLineD_dictGet_snd (m : LineMap) (k k' : Int) :
    getLineD (dictGet m k).2 k' = getLineD m k' := by
  unfold dictGet
  cases h : lookupLine m k with
  | some l => rfl
  | none =>
    unfold getLineD
    rw [lookupLine_append_single]
    cases h' : lookupLine m k' with
    | some l => rfl
    | none =>
      simp only [h']
      split <;> rfl

/-- A defaultdict read does not change the row total: the only possible
change appends an empty Line, which contributes zero. -/
theorem row_total_dictGet_snd (m : LineMap) (k : Int) :
    row_total (dictGet m k).2 = row_total m := by
  unfold dictGet
  cases h : lookupLine m k with
  | some l => rfl
  | none =>
    unfold row_total
    rw [List.map_append, List.sum_append]
    simp [Line.emptyLine, Line.get_num_of_cleaned_vertices]

/-- The column-count loop: its value is the starting count plus the pure
filter count over the starting rows map, and the rows map it returns is
lookup-equivalent to the starting one with an unchanged row total. -/
theorem uvicLoop_spec (x : Int) :
    ∀ (ys : List Int) (n : Int) (rows : LineMap),
      (uvicLoop x ys (n, rows)).1
          = n + ((ys.filter
              (fun y => !(getLineD rows y).containsCoord x)).length : Int)
        ∧ (∀ k', getLineD (uvicLoop x ys (n, rows)).2 k' = getLineD rows k')
        ∧ row_total (uvicLoop x ys (n, rows)).2 = row_total rows := by
  intro ys
  induction ys with
  | nil => intro n rows; simp [uvicLoop]
  | cons y rest ih =>
    intro n rows
    rw [uvicLoop]
    obtain ⟨ihv, ihl, iht⟩ :=
      ih (if (dictGet rows y).1.containsCoord x then n else n + 1)
        (dictGet rows y).2
    refine ⟨?_, ?_, ?_⟩
    · rw [ihv, dictGet_fst]
      have hfilter :
          rest.filter
              (fun y' => !(getLineD (dictGet rows y).2 y').containsCoord x)
            = rest.filter (fun y' => !(getLineD rows y').containsCoord x) :=
        List.filter_congr (fun y' _ => by rw [getLineD_dictGet_snd])
      rw [hfilter]
      by_cases hc : (getLineD rows y).containsCoord x = true
      · rw [if_pos hc, List.filter_cons_of_neg (by simp [hc])]
      · rw [if_neg hc,
          List.filter_cons_of_pos (by simp [Bool.not_eq_true] at hc; simp [hc]),
          List.length_cons]
        push_cast
        ring
    · intro k'
      rw [ihl k', getLineD_dictGet_snd]
    · rw [iht, row_total_dictGet_snd]

/-- The column summand depends on the rows map only through its
lookups-with-default. -/
theorem specUniqueVertices_congr (rows rows' : LineMap)
    (h : ∀ k, getLineD rows' k = getLineD rows k) (col : Line) (x : Int) :
    specUniqueVertices rows' col x = specUniqueVertices rows col x := by
  unfold specUniqueVertices
  rw [List.filter_congr (fun y _ => by rw [h y])]

/-- The column formula depends on the rows map only through its
lookups-with-default. -/
theorem specColTotal_congr (rows rows' : LineMap)
    (h : ∀ k, getLineD rows' k = getLineD rows k) (cols : LineMap) :
    specColTotal rows' cols = specColTotal rows cols := by
  unfold specColTotal
  congr 1
  exact List.map_congr_left
    (fun p _ => specUniqueVertices_congr rows rows' h p.2 p.1)

/-- The column pass: its value is the starting count plus the pure column
formula over the starting rows map, and it leaves a rows map that is
lookup-equivalent to the starting one with an unchanged row total. -/
theorem colTotalLoop_spec :
    ∀ (cols : List (Int × Line)) (n : Int) (rows : LineMap),
      (colTotalLoop (n, rows) cols).1 = n + specColTotal rows cols
        ∧ (∀ k', getLineD (colTotalLoop (n, rows) cols).2 k'
            = getLineD rows k')
        ∧ row_total (colTotalLoop (n, rows) cols).2 = row_total rows := by
  intro cols
  induction cols with
  | nil => intro n rows; simp [colTotalLoop, specColTotal]
  | cons p rest ih =>
    intro n rows
    obtain ⟨x, col⟩ := p
    rw [colTotalLoop]
    obtain ⟨uv, ul, ut⟩ := uvicLoop_spec x col.cleaned_coords 0 rows
    obtain ⟨ihv, ihl, iht⟩ :=
      ih (n + (unique_vertices_in_column rows col x).1)
        (unique_vertices_in_column rows col x).2
    have hl : ∀ k', getLineD (unique_vertices_in_column rows col x).2 k'
        = getLineD rows k' := ul
    refine ⟨?_, ?_, ?_⟩
    · rw [ihv]
      rw [specColTotal_congr rows _ hl rest]
      have hval : (unique_vertices_in_column rows col x).1
          = specUniqueVertices rows col x := by
        rw [show (unique_vertices_in_column rows col x)
            = uvicLoop x col.cleaned_coords (0, rows) from rfl, uv]
        unfold specUniqueVertices
        ring
      rw [hval]
      unfold specColTotal
      rw [List.map_cons, List.sum_cons]
      ring
    · intro k'
      rw [ihl k', hl k']
    · rw [iht]
      exact ut

/-- C3: when the replay of the commands succeeds, the tracker's returned
total equals the sum of the total covered lengths of all row Lines plus,
for every column Line keyed by x, the count of covered y-coordinates of
that column whose row Line keyed by y does not contain x. -/
theorem C3_tally_formula (commands : List Command) (office : Office)
    (h : replayCommands Office.initial commands = Except.ok office) :
    RobotTracker.get_num_of_cleaned_vertices commands
      = Except.ok (row_total office.rows
          + specColTotal office.rows office.cols) := by
  rw [RobotTracker.get_num_of_cleaned_vertices, h]
  have hv := (colTotalLoop_spec office.cols 0 office.rows).1
  have : (col_total office.rows office.cols).1
      = specColTotal office.rows office.cols := by
    rw [show col_total office.rows office.cols
        = colTotalLoop (0, office.rows) office.cols from rfl, hv]
    ring
  show Except.ok (row_total office.rows
      + (col_total office.rows office.cols).1)
    = Except.ok (row_total office.rows
      + specColTotal office.rows office.cols)
  rw [this]

/-- C3 witness: the empty command list replays to the initial office and
the returned total 1 matches the formula there. -/
theorem C3_tally_formula_witness :
    replayCommands Office.initial [] = Except.ok Office.initial ∧
    RobotTracker.get_num_of_cleaned_vertices []
      = Except.ok (row_total Office.initial.rows
          + specColTotal Office.initial.rows Office.initial.cols) :=
  ⟨rfl, C3_tally_formula [] Office.initial rfl⟩

/-- C10: one evaluation of _row_total + _col_total may grow the rows map
through the defaultdict lookups, but evaluating the tally again on the
resulting office returns the same value, because the added Lines are
empty and contribute zero. -/
theorem C10_tally_idempotent (o : Office) :
    (tallyRun (tallyRun o).2).1 = (tallyRun o).1 := by
  have h1 := colTotalLoop_spec o.cols 0 o.rows
  have hrows : (tallyRun o).2.rows = (colTotalLoop (0, o.rows) o.cols).2 :=
    rfl
  have hcols : (tallyRun o).2.cols = o.cols := rfl
  have h2 := colTotalLoop_spec o.cols 0 (colTotalLoop (0, o.rows) o.cols).2
  show row_total (tallyRun o).2.rows
      + (colTotalLoop (0, (tallyRun o).2.rows) (tallyRun o).2.cols).1
    = row_total o.rows + (colTotalLoop (0, o.rows) o.cols).1
  rw [hrows, hcols, h1.2.2, h2.1, h1.1,
    specColTotal_congr o.rows _ h1.2.1 o.cols]

/-- C1: the efficient tracker and the naive set-based tracker disagree on
the command list east 5, north 1, west 3, south 1, east 1 (all directions
valid, all step counts non-negative): the efficient tracker returns 12
while the naive enumeration of visited cells returns 10. -/
theorem C1_efficient_disagrees_with_naive :
    RobotTracker.get_num_of_cleaned_vertices
        [⟨"east", 5⟩, ⟨"north", 1⟩, ⟨"west", 3⟩, ⟨"south", 1⟩, ⟨"east", 1⟩]
      = Except.ok 12 ∧
    SimpleRobotTracker.get_num_of_cleaned_vertices
        [⟨"east", 5⟩, ⟨"north", 1⟩, ⟨"west", 3⟩, ⟨"south", 1⟩, ⟨"east", 1⟩]
      = Except.ok 10 :=
  ⟨rfl, rfl⟩

/-- C2: inserting the well-formed ranges [0,5] and then [2,3] into a fresh
Line leaves the stored list as [[0,5], [2,3]], which violates the claimed
invariant ranges[i].end + 1 < ranges[i+1].start: the second range is
entirely inside the first. -/
theorem C2_line_invariant_violated :
    ((Line.emptyLine.insert ⟨0, 5⟩).insert ⟨2, 3⟩).c_ranges
      = [⟨0, 5⟩, ⟨2, 3⟩] ∧
    lineInvariant ((Line.emptyLine.insert ⟨0, 5⟩).insert ⟨2, 3⟩).c_ranges
      = false :=
  ⟨rfl, rfl⟩

/-- C4: overlaps_with is not the intersect-or-adjacent test: the range
[2,3] intersects [0,5] (both contain the coordinate 2), yet
overlaps_with returns false because [0,5] strictly contains [2,3]. -/
theorem C4_overlaps_misses_containing_range :
    (⟨2, 3⟩ : CleanedRange).overlaps_with ⟨0, 5⟩ = false ∧
    (⟨2, 3⟩ : CleanedRange).containsCoord 2 = true ∧
    (⟨0, 5⟩ : CleanedRange).containsCoord 2 = true :=
  ⟨rfl, rfl, rfl⟩

/-- C4 (amended): for well-formed ranges, overlaps_with a b is true
exactly when the two inclusive intervals intersect or are adjacent AND b
does not strictly contain a on both sides (in that last case the test
wrongly reports no overlap). -/
theorem C4_overlaps_characterization (a b : CleanedRange)
    (ha : a.start ≤ a.end') (hb : b.start ≤ b.end') :
    a.overlaps_with b = true ↔
      (max a.start b.start ≤ min a.end' b.end' + 1 ∧
        ¬(b.start < a.start ∧ a.end' < b.end')) := by
  unfold CleanedRange.overlaps_with
  simp only [Bool.or_eq_true, Bool.and_eq_true, decide_eq_true_eq]
  omega

/-- C4 witness: the characterization applied to the adjacent ranges [0,2]
and [2,5]. -/
theorem C4_overlaps_characterization_witness :
    (0 : Int) ≤ 2 ∧ (2 : Int) ≤ 5 ∧
      ((⟨0, 2⟩ : CleanedRange).overlaps_with ⟨2, 5⟩ = true ↔
        (max (0 : Int) 2 ≤ min (2 : Int) 5 + 1 ∧
          ¬((2 : Int) < 0 ∧ (2 : Int) < 5))) :=
  ⟨by norm_num, by norm_num,
    C4_overlaps_characterization ⟨0, 2⟩ ⟨2, 5⟩ (by norm_num) (by norm_num)⟩

/-- C6: the total covered length of a Line can decrease across an insert:
after inserting [0,0], [4,4], [8,8], [0,8] the total is 10 (the stored
ranges [[0,8], [8,8]] double-count the coordinate 8), and inserting [8,8]
once more collapses the duplicates and drops the total to 9. -/
theorem C6_total_decreases :
    ((((Line.emptyLine.insert ⟨0, 0⟩).insert ⟨4, 4⟩).insert ⟨8, 8⟩).insert
        ⟨0, 8⟩).get_num_of_cleaned_vertices = 10 ∧
    (((((Line.emptyLine.insert ⟨0, 0⟩).insert ⟨4, 4⟩).insert ⟨8, 8⟩).insert
        ⟨0, 8⟩).insert ⟨8, 8⟩).get_num_of_cleaned_vertices = 9 :=
  ⟨rfl, rfl⟩

/-- C7: appending a zero-step east move to a 12-command sequence changes
the tracker's result from 19 to 18, so a zero-step move does not always
leave the final tally unchanged. -/
theorem C7_zero_step_move_changes_result :
    RobotTracker.get_num_of_cleaned_vertices
        [⟨"north", 1⟩, ⟨"east", 4⟩, ⟨"south", 1⟩, ⟨"east", 0⟩,
         ⟨"north", 1⟩, ⟨"east", 4⟩, ⟨"south", 1⟩, ⟨"east", 0⟩,
         ⟨"north", 1⟩, ⟨"west", 8⟩, ⟨"south", 1⟩, ⟨"east", 8⟩]
      = Except.ok 19 ∧
    RobotTracker.get_num_of_cleaned_vertices
        [⟨"north", 1⟩, ⟨"east", 4⟩, ⟨"south", 1⟩, ⟨"east", 0⟩,
         ⟨"north", 1⟩, ⟨"east", 4⟩, ⟨"south", 1⟩, ⟨"east", 0⟩,
         ⟨"north", 1⟩, ⟨"west", 8⟩, ⟨"south", 1⟩, ⟨"east", 8⟩,
         ⟨"east", 0⟩]
      = Except.ok 18 :=
  ⟨rfl, rfl⟩

/-- C8: the construction does not register an arbitrary starting position:
for the starting position (1,1) neither the row keyed by 1 contains 1 nor
is anything but the origin recorded, so the claimed for-every-start
registration fails (the code takes no start parameter and always starts
at the origin). -/
theorem C8_start_not_registered_counterexample :
    startRegistered ⟨1, 1⟩ = false :=
  rfl

/-- C8 (amended): the tracker takes only the command list; the starting
position is fixed at the origin, and on construction the cell (0,0) is
registered as a single-cell range in both rows[0] and cols[0], which are
the only populated lines. -/
theorem C8_origin_registered :
    startRegistered ⟨0, 0⟩ = true ∧
    Office.initial.robot_position = ⟨0, 0⟩ ∧
    Office.initial.rows = [(0, ⟨[⟨0, 0⟩]⟩)] ∧
    Office.initial.cols = [(0, ⟨[⟨0, 0⟩]⟩)] :=
  ⟨rfl, rfl, rfl, rfl⟩

end Cleanbot
